import Mathlib

set_option autoImplicit false
set_option maxRecDepth 8192

namespace Qingping

/- ----------------------------------------------------------------------
Configuration codec (src/qingping/configuration.py)

The 20-byte configuration record, its decoder (`Configuration.__init__`),
its encoder (`Configuration.to_bytes`) and the property setters.  Setters
and the encoder return `Option` values: `none` models a raised
`ValueError`.  Bytes are modelled as `Nat` values; the encoder checks the
`0 ≤ x < 256` range that Python's `bytes([x])` enforces.
---------------------------------------------------------------------- -/

/-- Display language stored in bit 0 of the flags byte. -/
inductive Language where
  | EN
  | ZH
  deriving DecidableEq, Inhabited

/-- In-memory mirror of the 20-byte configuration record: the fields set by
`Configuration.__init__`, without the capture timestamp.
`timezone_offset_abs` is the Python `_timezone_offset` field (always a
magnitude in minutes; the sign lives in `tz_plus_flag`). -/
structure Configuration where
  sound_volume : Nat
  hdr1 : Nat
  hdr2 : Nat
  timezone_offset_abs : Nat
  screen_light_time : Nat
  daytime_brightness : Nat
  nighttime_brightness : Nat
  night_time_start_hour : Nat
  night_time_start_minute : Nat
  night_time_end_hour : Nat
  night_time_end_minute : Nat
  tz_plus_flag : Bool
  night_mode : Bool
  reserved : Nat
  ringtone_signature : List Nat
  language : Language
  use_24h_format : Bool
  use_celsius : Bool
  alarms_on : Bool
  deriving DecidableEq, Inhabited

/-- `Configuration.__init__`: decode a configuration frame.  Python raises
when fewer than 20 bytes are supplied; byte 5 is the flags bitfield, byte 8
packs the two brightness nibbles, bytes 16-19 are the ringtone signature. -/
def Configuration.ofBytes (b : List Nat) : Option Configuration :=
  if b.length < 20 then none
  else
    let flags := b.getD 5 0
    some {
      sound_volume := b.getD 2 0
      hdr1 := b.getD 3 0
      hdr2 := b.getD 4 0
      timezone_offset_abs := b.getD 6 0 * 6
      screen_light_time := b.getD 7 0
      daytime_brightness := b.getD 8 0 / 16 % 16 * 10
      nighttime_brightness := b.getD 8 0 % 16 * 10
      night_time_start_hour := b.getD 9 0
      night_time_start_minute := b.getD 10 0
      night_time_end_hour := b.getD 11 0
      night_time_end_minute := b.getD 12 0
      tz_plus_flag := b.getD 13 0 == 1
      night_mode := b.getD 14 0 == 1
      reserved := b.getD 15 0
      ringtone_signature := (b.drop 16).take 4
      language := if flags % 2 = 0 then Language.ZH else Language.EN
      use_24h_format := flags / 2 % 2 == 0
      use_celsius := flags / 4 % 2 == 0
      alarms_on := flags / 16 % 2 == 0 }

/-- The `timezone_offset` property getter: signed offset in minutes. -/
def Configuration.timezone_offset (c : Configuration) : Int :=
  if c.tz_plus_flag then (c.timezone_offset_abs : Int)
  else -(c.timezone_offset_abs : Int)

/-- The `timezone_offset` property setter: rejects magnitudes above 720,
stores the absolute value and the sign flag.  No divisibility check. -/
def Configuration.timezone_offset_set (c : Configuration) (value : Int) :
    Option Configuration :=
  if value > 720 ∨ value < -720 then none
  else some { c with
    timezone_offset_abs := value.natAbs
    tz_plus_flag := decide (0 ≤ value) }

/-- The `screen_light_time` property setter: rejects values outside 1-30. -/
def Configuration.screen_light_time_set (c : Configuration) (value : Int) :
    Option Configuration :=
  if value < 1 ∨ value > 30 then none
  else some { c with screen_light_time := value.toNat }

/-- The `daytime_brightness` property setter: rejects values outside 1-100. -/
def Configuration.daytime_brightness_set (c : Configuration) (value : Int) :
    Option Configuration :=
  if value < 1 ∨ value > 100 then none
  else some { c with daytime_brightness := value.toNat }

/-- The `nighttime_brightness` property setter: rejects values outside 1-100. -/
def Configuration.nighttime_brightness_set (c : Configuration) (value : Int) :
    Option Configuration :=
  if value < 1 ∨ value > 100 then none
  else some { c with nighttime_brightness := value.toNat }

/-- The `sound_volume` property setter: rejects values outside 1-5. -/
def Configuration.sound_volume_set (c : Configuration) (value : Int) :
    Option Configuration :=
  if value < 1 ∨ value > 5 then none
  else some { c with sound_volume := value.toNat }

/-- `Configuration._brightness_to_byte`: validates both brightness values
(0-100 and a multiple of 10) and packs them into one byte as two nibbles. -/
def brightness_to_byte (daytime nighttime : Nat) : Option Nat :=
  if ¬ (daytime ≤ 100 ∧ daytime % 10 = 0) then none
  else if ¬ (nighttime ≤ 100 ∧ nighttime % 10 = 0) then none
  else some (daytime / 10 * 16 + nighttime / 10)

/-- Python's `bytes(list)` conversion: every entry must lie in `[0, 256)`,
otherwise a `ValueError` is raised. -/
def bytesOfInts : List Int → Option (List Nat)
  | [] => some []
  | x :: xs =>
    if 0 ≤ x ∧ x < 256 then (bytesOfInts xs).map (fun r => x.toNat :: r)
    else none

/-- The flags byte assembled by `Configuration.to_bytes` (each feature is an
inverted single bit: bit clear means the primary value). -/
def Configuration.flags_byte (c : Configuration) : Nat :=
  (if c.language = Language.ZH then 0 else 1)
  + (if c.use_24h_format then 0 else 2)
  + (if c.use_celsius then 0 else 4)
  + (if c.alarms_on then 0 else 16)

/-- `Configuration.to_bytes`: the encoder.  Note that byte 6 is computed as
`timezone_offset // 6` on the *signed* property value (Python floor
division, `Int.fdiv`), exactly as in the source. -/
def Configuration.to_bytes (c : Configuration) : Option (List Nat) := do
  let bb ← brightness_to_byte c.daytime_brightness c.nighttime_brightness
  let raw : List Int :=
    [19, 1, (c.sound_volume : Int), (c.hdr1 : Int), (c.hdr2 : Int),
     (c.flags_byte : Int), Int.fdiv c.timezone_offset 6,
     (c.screen_light_time : Int), (bb : Int),
     (c.night_time_start_hour : Int), (c.night_time_start_minute : Int),
     (c.night_time_end_hour : Int), (c.night_time_end_minute : Int),
     if c.tz_plus_flag then 1 else 0, if c.night_mode then 1 else 0,
     (c.reserved : Int)] ++ c.ringtone_signature.map (fun x => (x : Int))
  let out ← bytesOfInts raw
  if out.length = 20 then some out else none

/-- `decode ∘ encode` on configurations. -/
def Configuration.roundTrip (c : Configuration) : Option Configuration :=
  c.to_bytes.bind Configuration.ofBytes

/-- Legal field ranges for a configuration, as enumerated by the round-trip
claim: volume 1-5, timezone magnitude a multiple of 6 at most 720, backlight
0-30, brightnesses multiples of 10 at most 100, valid night times, byte
headers/reserved, and a 4-byte signature. -/
def Configuration.legal (c : Configuration) : Prop :=
  1 ≤ c.sound_volume ∧ c.sound_volume ≤ 5
  ∧ c.timezone_offset_abs % 6 = 0 ∧ c.timezone_offset_abs ≤ 720
  ∧ c.screen_light_time ≤ 30
  ∧ c.daytime_brightness ≤ 100 ∧ c.daytime_brightness % 10 = 0
  ∧ c.nighttime_brightness ≤ 100 ∧ c.nighttime_brightness % 10 = 0
  ∧ c.night_time_start_hour ≤ 23 ∧ c.night_time_start_minute ≤ 59
  ∧ c.night_time_end_hour ≤ 23 ∧ c.night_time_end_minute ≤ 59
  ∧ c.hdr1 ≤ 255 ∧ c.hdr2 ≤ 255 ∧ c.reserved ≤ 255
  ∧ c.ringtone_signature.length = 4 ∧ (∀ x ∈ c.ringtone_signature, x < 256)

instance (c : Configuration) : Decidable c.legal := by
  unfold Configuration.legal
  infer_instance

/-- A configuration frame with a *negative* timezone (byte 13 = 0, byte 6 =
10, i.e. -60 minutes); all other fields are within their legal ranges. -/
def cfgFrameNeg : List Nat :=
  [19, 2, 3, 88, 2, 0, 10, 5, 85, 21, 0, 6, 0, 0, 1, 0, 222, 173, 222, 173]

/-- The same frame with a positive timezone sign (byte 13 = 1). -/
def cfgFramePos : List Nat :=
  [19, 2, 3, 88, 2, 0, 10, 5, 85, 21, 0, 6, 0, 1, 1, 0, 222, 173, 222, 173]

/-- The decoded negative-timezone configuration. -/
def cfgNeg : Configuration := (Configuration.ofBytes cfgFrameNeg).getD default

/-- The decoded positive-timezone configuration. -/
def cfgPos : Configuration := (Configuration.ofBytes cfgFramePos).getD default

end Qingping

namespace Qingping

/- ----------------------------------------------------------------------
Alarm codec (src/qingping/alarm.py)

One of 16 fixed 5-byte slots.  Absent fields are `none`; the all-0xFF
payload is the empty-slot sentinel.
---------------------------------------------------------------------- -/

/-- Days of the week, as in the `AlarmDay` enum. -/
inductive AlarmDay where
  | MONDAY
  | TUESDAY
  | WEDNESDAY
  | THURSDAY
  | FRIDAY
  | SATURDAY
  | SUNDAY
  deriving DecidableEq, Inhabited

/-- The day list in bit order (Monday = bit 0 .. Sunday = bit 6). -/
def allAlarmDays : List AlarmDay :=
  [AlarmDay.MONDAY, AlarmDay.TUESDAY, AlarmDay.WEDNESDAY, AlarmDay.THURSDAY,
   AlarmDay.FRIDAY, AlarmDay.SATURDAY, AlarmDay.SUNDAY]

/-- The bit assigned to each day by `_bitmask_to_days`/`_days_to_bitmask`. -/
def AlarmDay.bit : AlarmDay → Nat
  | AlarmDay.MONDAY => 1
  | AlarmDay.TUESDAY => 2
  | AlarmDay.WEDNESDAY => 4
  | AlarmDay.THURSDAY => 8
  | AlarmDay.FRIDAY => 16
  | AlarmDay.SATURDAY => 32
  | AlarmDay.SUNDAY => 64

/-- `Alarm._bitmask_to_days`: the days whose bit is set, in bit order. -/
def bitmask_to_days (bitmask : Nat) : List AlarmDay :=
  allAlarmDays.filter (fun d => bitmask &&& d.bit != 0)

/-- `Alarm._days_to_bitmask`: OR together the bits of the listed days. -/
def days_to_bitmask (days : List AlarmDay) : Nat :=
  days.foldl (fun m d => m ||| d.bit) 0

/-- One alarm slot: the five logical fields are `none` when absent (the
class-level defaults in the source), `some` when set by the constructor or
a caller. -/
structure Alarm where
  slot : Nat
  is_enabled : Option Bool
  hour : Option Nat
  minute : Option Nat
  days : Option (List AlarmDay)
  snooze : Option Bool
  deriving DecidableEq, Inhabited

/-- The all-0xFF empty-slot sentinel payload. -/
def alarmSentinel : List Nat := [255, 255, 255, 255, 255]

/-- `Alarm.__init__`: decode a 5-byte slot payload.  The sentinel leaves all
five fields absent; any other payload sets all five. -/
def Alarm.ofBytes (slot : Nat) (alarm_bytes : List Nat) : Alarm :=
  if alarm_bytes = alarmSentinel then
    { slot := slot, is_enabled := none, hour := none, minute := none,
      days := none, snooze := none }
  else
    { slot := slot
      is_enabled := some (alarm_bytes.getD 0 0 == 1)
      hour := some (alarm_bytes.getD 1 0)
      minute := some (alarm_bytes.getD 2 0)
      days := some (bitmask_to_days (alarm_bytes.getD 3 0))
      snooze := some (alarm_bytes.getD 4 0 == 1) }

/-- The `is_configured` property: all five logical fields present. -/
def Alarm.is_configured (a : Alarm) : Prop :=
  a.is_enabled.isSome ∧ a.hour.isSome ∧ a.minute.isSome
  ∧ a.days.isSome ∧ a.snooze.isSome

instance (a : Alarm) : Decidable a.is_configured := by
  unfold Alarm.is_configured
  infer_instance

/-- `Alarm.to_bytes`: the 8-byte write frame `07 05 slot` followed by the
5-byte payload — the encoded fields when configured, the all-0xFF sentinel
otherwise.  `bytes(...)` range failures are modelled through `bytesOfInts`. -/
def Alarm.to_bytes (a : Alarm) : Option (List Nat) :=
  if a.is_configured then
    bytesOfInts
      [7, 5, (a.slot : Int),
       if a.is_enabled.getD false then 1 else 0,
       (a.hour.getD 0 : Int), (a.minute.getD 0 : Int),
       (days_to_bitmask (a.days.getD []) : Int),
       if a.snooze.getD false then 1 else 0]
  else
    bytesOfInts [7, 5, (a.slot : Int), 255, 255, 255, 255, 255]

/-- `Alarm.deactivate`: clear all five logical fields. -/
def Alarm.deactivate (a : Alarm) : Alarm :=
  { a with is_enabled := none, hour := none, minute := none, days := none,
           snooze := none }

/-- The 5-byte slot payload of an encoded alarm (frame minus the
`07 05 slot` header). -/
def Alarm.encodedPayload (a : Alarm) : List Nat :=
  (a.to_bytes.getD []).drop 3

/-- Equality of two alarms on the five logical fields. -/
def Alarm.fieldsEq (a b : Alarm) : Prop :=
  a.is_enabled = b.is_enabled ∧ a.hour = b.hour ∧ a.minute = b.minute
  ∧ a.days = b.days ∧ a.snooze = b.snooze

instance (a b : Alarm) : Decidable (a.fieldsEq b) := by
  unfold Alarm.fieldsEq
  infer_instance

end Qingping

namespace Qingping

/- ----------------------------------------------------------------------
Ringtone signatures (src/qingping/ringtones.py)
---------------------------------------------------------------------- -/

/-- The first custom ringtone slot signature `de ad de ad`. -/
def CUSTOM_SLOT_DEAD : List Nat := [222, 173, 222, 173]

/-- The second custom ringtone slot signature `be ef be ef`. -/
def CUSTOM_SLOT_BEEF : List Nat := [190, 239, 190, 239]

/-- `choose_next_custom_slot`: alternate between the two custom slots based
on the current signature; unknown or absent signatures map to DEAD. -/
def choose_next_custom_slot (current_signature : Option (List Nat)) :
    List Nat :=
  if current_signature = some CUSTOM_SLOT_DEAD then CUSTOM_SLOT_BEEF
  else CUSTOM_SLOT_DEAD

/-- A slot with stale field values but an absent hour (unconfigured). -/
def alarmStale : Alarm :=
  { slot := 4, is_enabled := some true, hour := none, minute := some 9,
    days := some [AlarmDay.FRIDAY], snooze := some false }

end Qingping

namespace Qingping

/- ----------------------------------------------------------------------
Alarm-snapshot assembler
(the `11 06` branch of `Qingping._notification_handler`)

The by-slot dictionary `_alarms_by_slot` is modelled as a 16-entry list of
optional alarms.  Processing one fragment returns the updated table and the
published event: `complete` when all 16 slots have been observed (this is
also when `_alarms_event.set()` resolves the alarms wait), `progress` for a
partial snapshot, `ignored` when the frame does not match the branch.
---------------------------------------------------------------------- -/

/-- Event emitted by the alarm-fragment branch of `_notification_handler`. -/
inductive AlarmsEvent where
  | complete (alarms : List Alarm)
  | progress (alarms : List Alarm)
  | ignored
  deriving DecidableEq, Inhabited

/-- Split the fragment body into consecutive 5-byte entries, dropping any
short remainder, exactly as `range(len(body) // 5)` iterates. -/
def chunks5 : List Nat → List (List Nat)
  | a :: b :: c :: d :: e :: rest => [a, b, c, d, e] :: chunks5 rest
  | _ => []

/-- Merge the decoded entries into the by-slot table starting at `base`;
entries whose slot falls outside [0, 16) are skipped, as in the source. -/
def mergeEntries (st : List (Option Alarm)) (base : Nat) :
    List (List Nat) → List (Option Alarm)
  | [] => st
  | entry :: rest =>
    mergeEntries
      (if base < 16 then st.set base (some (Alarm.ofBytes base entry))
       else st)
      (base + 1) rest

/-- `len(self._alarms_by_slot)`: the number of observed slots. -/
def countSlots (st : List (Option Alarm)) : Nat :=
  st.countP Option.isSome

/-- `[self._alarms_by_slot[i] for i in range(16)]` (the complete list). -/
def collectFull (st : List (Option Alarm)) : List Alarm :=
  (List.range 16).map fun i => (st.getD i none).getD default

/-- `[self._alarms_by_slot[i] for i in sorted(self._alarms_by_slot)]` (the
partial list, in ascending slot order). -/
def collectSome (st : List (Option Alarm)) : List Alarm :=
  st.reduceOption

/-- The table after merging one fragment: a base index of 0 first clears
any accumulated state, then the 5-byte entries are merged starting at the
base index. -/
def newTable (st : List (Option Alarm)) (payload : List Nat) :
    List (Option Alarm) :=
  mergeEntries
    (if payload.getD 2 0 = 0 then List.replicate 16 none else st)
    (payload.getD 2 0) (chunks5 (payload.drop 3))

/-- The alarm-snapshot branch of `Qingping._notification_handler`: a frame
`11 06 base entries...` merges its 5-byte entries into the table (base 0
first clears it) and publishes the resulting event. -/
def processFragment (st : List (Option Alarm)) (payload : List Nat) :
    List (Option Alarm) × AlarmsEvent :=
  if payload.take 2 = [17, 6] ∧ 8 ≤ payload.length then
    if 16 ≤ countSlots (newTable st payload) then
      (newTable st payload,
        AlarmsEvent.complete (collectFull (newTable st payload)))
    else
      (newTable st payload,
        AlarmsEvent.progress (collectSome (newTable st payload)))
  else (st, AlarmsEvent.ignored)

/-- A base-0 fragment carrying entries for slots 0-9 (10 entries). -/
def frag0 : List Nat := [17, 6, 0] ++ List.replicate 50 0

/-- A base-10 fragment carrying entries for slots 10-15 (6 entries). -/
def frag10 : List Nat := [17, 6, 10] ++ List.replicate 30 0

/-- The table accumulated after the base-0 fragment alone. -/
def stMid : List (Option Alarm) := newTable (List.replicate 16 none) frag0

/-- Table invariant: every stored alarm carries the slot index it is filed
under.  It holds for every table the handler ever builds. -/
def SlotInv (st : List (Option Alarm)) : Prop :=
  ∀ i a, st.getD i none = some a → a.slot = i

end Qingping

namespace Qingping

/- ----------------------------------------------------------------------
Ack registry (`Qingping._arm_ack`, `_wait_for_ack`, and the `04 ff` branch
of `_notification_handler`)

`_ack_waiters` maps an opcode to an asyncio future.  We track every future
ever created as a record with a fresh id and a status, the registry as an
opcode → id association, and the three operations that touch it: arming a
waiter (`_arm_ack`; `_wait_for_ack` arms identically: pop-then-insert on a
dict equals overwrite), an inbound `04 ff opcode` ack notification, and a
timeout cancelling a future (`asyncio.wait_for` on expiry).
---------------------------------------------------------------------- -/

/-- Status of one waiter future. -/
inductive WStatus where
  | pending
  | cancelled
  | resolved (payload : List Nat)
  deriving DecidableEq, Inhabited

/-- One waiter future, identified by a fresh id. -/
structure AckWaiter where
  wid : Nat
  opcode : Nat
  status : WStatus
  deriving DecidableEq, Inhabited

/-- Registry state: every waiter ever created, the current `_ack_waiters`
table (opcode → waiter id), and the id supply. -/
structure AckState where
  waiters : List AckWaiter
  table : List (Nat × Nat)
  nextId : Nat
  deriving DecidableEq, Inhabited

/-- The initial, empty registry. -/
def AckState.init : AckState := ⟨[], [], 0⟩

/-- The operations that touch the registry. -/
inductive AckOp where
  | arm (opcode : Nat)
  | notify (opcode : Nat) (payload : List Nat)
  | timeoutCancel (wid : Nat)
  deriving DecidableEq

/-- `_ack_waiters.get(opcode)`. -/
def lookupTable : List (Nat × Nat) → Nat → Option Nat
  | [], _ => none
  | e :: t, op => if e.1 = op then some e.2 else lookupTable t op

/-- `_ack_waiters[opcode] = fut` (dict overwrite). -/
def setTable (t : List (Nat × Nat)) (op wid : Nat) : List (Nat × Nat) :=
  (t.filter (fun e => e.1 != op)) ++ [(op, wid)]

/-- `_ack_waiters.pop(opcode, None)` (the removal part). -/
def removeTable (t : List (Nat × Nat)) (op : Nat) : List (Nat × Nat) :=
  t.filter (fun e => e.1 != op)

/-- Find the waiter record with the given id. -/
def findW : List AckWaiter → Nat → Option AckWaiter
  | [], _ => none
  | w :: ws, wid => if w.wid = wid then some w else findW ws wid

/-- The status of the waiter with the given id. -/
def AckState.statusOf (s : AckState) (wid : Nat) : Option WStatus :=
  (findW s.waiters wid).map AckWaiter.status

/-- Rewrite the status of the waiter with the given id. -/
def setStatus (ws : List AckWaiter) (wid : Nat) (st : WStatus) :
    List AckWaiter :=
  ws.map (fun w => if w.wid = wid then { w with status := st } else w)

/-- `old = self._ack_waiters.get(opcode); if old and not old.done():
old.cancel()` — cancel the registered waiter if it is still pending. -/
def cancelOld (s : AckState) (op : Nat) : AckState :=
  match lookupTable s.table op with
  | none => s
  | some wid =>
    match s.statusOf wid with
    | some WStatus.pending =>
      { s with waiters := setStatus s.waiters wid WStatus.cancelled }
    | _ => s

/-- One registry transition. -/
def AckState.step (s : AckState) : AckOp → AckState
  | AckOp.arm op =>
    let s1 := cancelOld s op
    { s1 with
      waiters := s1.waiters ++ [⟨s.nextId, op, WStatus.pending⟩]
      table := setTable s1.table op s.nextId
      nextId := s.nextId + 1 }
  | AckOp.notify op payload =>
    match lookupTable s.table op with
    | none => s
    | some wid =>
      match s.statusOf wid with
      | some WStatus.pending =>
        { s with
          table := removeTable s.table op
          waiters := setStatus s.waiters wid (WStatus.resolved payload) }
      | _ => { s with table := removeTable s.table op }
  | AckOp.timeoutCancel wid =>
    match s.statusOf wid with
    | some WStatus.pending =>
      { s with waiters := setStatus s.waiters wid WStatus.cancelled }
    | _ => s

/-- Run a sequence of registry operations from the empty registry. -/
def runOps (ops : List AckOp) : AckState :=
  ops.foldl AckState.step AckState.init

/-- Registry invariant: waiter ids are fresh and unique, the table points at
existing waiters of the right opcode, and every pending waiter is the one
its opcode's table entry points at. -/
def AckInv (s : AckState) : Prop :=
  (∀ w ∈ s.waiters, w.wid < s.nextId)
  ∧ (s.waiters.map AckWaiter.wid).Nodup
  ∧ (∀ op wid, lookupTable s.table op = some wid →
      ∃ w ∈ s.waiters, w.wid = wid ∧ w.opcode = op)
  ∧ (∀ w ∈ s.waiters, w.status = WStatus.pending →
      lookupTable s.table w.opcode = some w.wid)

end Qingping

namespace Qingping

/- ----------------------------------------------------------------------
Transfer engine (`Qingping.upload_ringtone`)

The upload is modelled as the sequence of externally visible actions it
performs: arming an ack waiter, writing a frame, awaiting an armed ack, and
the two pacing sleeps (0.02 s between packets, `DISCONNECT_DELAY` after the
last packet of each block).
---------------------------------------------------------------------- -/

/-- One externally visible action of `upload_ringtone`. -/
inductive UploadAction where
  | armAck (opcode : Nat)
  | writeChar (data : List Nat)
  | awaitAck (opcode : Nat)
  | sleepShort
  | sleepLong
  deriving DecidableEq

/-- The init frame `08 10` + 3-byte little-endian size + 4-byte signature. -/
def initPayload (size : Nat) (signature : List Nat) : List Nat :=
  [8, 16, size % 256, size / 256 % 256, size / 65536 % 256] ++ signature

/-- The 128-byte chunk for the packet at byte offset `off`: all padding when
the offset is past the end, otherwise the payload slice padded to 128 bytes
with `0xFF`. -/
def packetChunk (pcm : List Nat) (off : Nat) : List Nat :=
  if pcm.length ≤ off then List.replicate 128 255
  else
    (pcm.drop off).take 128
      ++ List.replicate (128 - ((pcm.drop off).take 128).length) 255

/-- The actions for packet `i` of block `b`: the last packet of a block
arms the opcode-8 ack waiter before its write and is followed by the long
pacing sleep; the ack is never awaited. -/
def packetActions (pcm : List Nat) (b i : Nat) : List UploadAction :=
  if i = 3 then
    [UploadAction.armAck 8,
     UploadAction.writeChar ([129, 8] ++ packetChunk pcm (b * 512 + i * 128)),
     UploadAction.sleepLong]
  else
    [UploadAction.writeChar ([129, 8] ++ packetChunk pcm (b * 512 + i * 128)),
     UploadAction.sleepShort]

/-- The actions for one 512-byte block (4 packets of 128 bytes). -/
def blockActions (pcm : List Nat) (b : Nat) : List UploadAction :=
  (List.range 4).flatMap (packetActions pcm b)

/-- `upload_ringtone`: signature validation, the init exchange (waiter for
opcode `0x10` armed before the init write, then awaited), then the block
loop over `ceil(size / 512)` blocks. -/
def uploadTrace (pcm signature : List Nat) : Option (List UploadAction) :=
  if signature.length ≠ 4 then none
  else
    some ([UploadAction.armAck 16,
           UploadAction.writeChar (initPayload pcm.length signature),
           UploadAction.awaitAck 16]
      ++ (List.range ((pcm.length + 511) / 512)).flatMap (blockActions pcm))

end Qingping

namespace Qingping

/-- Every list of ints that all lie in `[0, 256)` converts to bytes. -/
theorem bytesOfInts_eq_some (xs : List Int) (h : ∀ x ∈ xs, 0 ≤ x ∧ x < 256) :
    bytesOfInts xs = some (xs.map Int.toNat) := by
  induction xs with
  | nil => rfl
  | cons x xs ih =>
    have hx := h x (List.mem_cons_self x xs)
    have ht : ∀ y ∈ xs, 0 ≤ y ∧ y < 256 :=
      fun y hy => h y (List.mem_cons_of_mem x hy)
    simp [bytesOfInts, if_pos hx, ih ht]

/-- Day lists produced by decoding are exactly the in-order sublists of
`allAlarmDays`; such lists are fixed by bitmask round-tripping. -/
theorem bitmask_to_days_days_to_bitmask (ds : List AlarmDay)
    (h : ds.Sublist allAlarmDays) :
    bitmask_to_days (days_to_bitmask ds) = ds := by
  have hmem : ds ∈ allAlarmDays.sublists := List.mem_sublists.mpr h
  revert hmem
  have : ∀ l ∈ allAlarmDays.sublists,
      bitmask_to_days (days_to_bitmask l) = l := by decide
  exact this ds

/-- Bitmasks of day lists drawn from the seven-day table fit in a byte. -/
theorem days_to_bitmask_lt (ds : List AlarmDay)
    (h : ds.Sublist allAlarmDays) : days_to_bitmask ds < 256 := by
  have hall : ∀ l ∈ allAlarmDays.sublists, days_to_bitmask l < 256 := by
    decide
  exact hall ds (List.mem_sublists.mpr h)

/-- Decoding stores the slot index it was given. -/
theorem Alarm.ofBytes_slot (slot : Nat) (bs : List Nat) :
    (Alarm.ofBytes slot bs).slot = slot := by
  unfold Alarm.ofBytes
  split <;> rfl

/-- Merging entries never changes the size of the by-slot table. -/
theorem mergeEntries_length (es : List (List Nat)) (st : List (Option Alarm))
    (base : Nat) : (mergeEntries st base es).length = st.length := by
  induction es generalizing st base with
  | nil => rfl
  | cons e es ih =>
    simp only [mergeEntries]
    rw [ih]
    split <;> simp [List.length_set]

/-- Writing one decoded entry preserves the slot invariant. -/
theorem slotInv_set (st : List (Option Alarm)) (base : Nat) (e : List Nat)
    (hinv : SlotInv st) :
    SlotInv (st.set base (some (Alarm.ofBytes base e))) := by
  intro i a h
  by_cases hlt : i < st.length
  · rw [List.getD_eq_getElem _ _ (by simpa using hlt)] at h
    rw [List.getElem_set] at h
    by_cases hbi : base = i
    · rw [if_pos hbi] at h
      cases h
      rw [Alarm.ofBytes_slot]
      exact hbi
    · rw [if_neg hbi] at h
      exact hinv i a (by rw [List.getD_eq_getElem _ _ hlt]; exact h)
  · rw [List.getD_eq_default _ _ (by simp; omega)] at h
    cases h

/-- Merging a run of entries preserves the slot invariant. -/
theorem mergeEntries_slotInv (es : List (List Nat)) (st : List (Option Alarm))
    (base : Nat) (hinv : SlotInv st) : SlotInv (mergeEntries st base es) := by
  induction es generalizing st base with
  | nil => exact hinv
  | cons e es ih =>
    simp only [mergeEntries]
    apply ih
    split
    · exact slotInv_set st base e hinv
    · exact hinv

/-- The empty table satisfies the slot invariant. -/
theorem slotInv_replicate :
    SlotInv (List.replicate 16 (none : Option Alarm)) := by
  intro i a h
  by_cases hi : i < 16
  · rw [List.getD_eq_getElem _ _ (by simpa using hi)] at h
    rw [List.getElem_replicate] at h
    cases h
  · rw [List.getD_eq_default _ _ (by simp; omega)] at h
    cases h

/-- A 16-entry table with 16 observed slots has every slot observed. -/
theorem countSlots_all_some (st : List (Option Alarm)) (hlen : st.length = 16)
    (hc : 16 ≤ countSlots st) : ∀ i, i < 16 → (st.getD i none).isSome := by
  have hle : countSlots st ≤ st.length := by
    unfold countSlots
    exact List.countP_le_length _
  have heq : countSlots st = st.length := by omega
  have hall : ∀ x ∈ st, x.isSome :=
    List.countP_eq_length.mp (by unfold countSlots at heq; exact heq)
  intro i hi
  rw [List.getD_eq_getElem _ _ (by omega)]
  exact hall _ (List.getElem_mem _)

/-- Indexing the complete snapshot list. -/
theorem collectFull_getD (st : List (Option Alarm)) (i : Nat) (hi : i < 16) :
    (collectFull st).getD i default = (st.getD i none).getD default := by
  unfold collectFull
  rw [List.getD_eq_getElem _ _ (by simpa using hi)]
  rw [List.getElem_map]
  rw [List.getElem_range]

/-- There are never more observed slots than table entries. -/
theorem countSlots_le_length (st : List (Option Alarm)) :
    countSlots st ≤ st.length := by
  unfold countSlots
  exact List.countP_le_length _

/-- The merged table of a well-formed fragment has 16 entries. -/
theorem newTable_length (st : List (Option Alarm)) (payload : List Nat)
    (hst : st.length = 16) : (newTable st payload).length = 16 := by
  unfold newTable
  rw [mergeEntries_length]
  split
  · simp
  · exact hst

/-- The merged table of a well-formed fragment satisfies the slot
invariant whenever the incoming table does. -/
theorem newTable_slotInv (st : List (Option Alarm)) (payload : List Nat)
    (hinv : SlotInv st) : SlotInv (newTable st payload) := by
  unfold newTable
  apply mergeEntries_slotInv
  split
  · exact slotInv_replicate
  · exact hinv

/-- Rewriting a status never changes the id sequence. -/
theorem setStatus_map_wid (ws : List AckWaiter) (wid : Nat) (st : WStatus) :
    (setStatus ws wid st).map AckWaiter.wid = ws.map AckWaiter.wid := by
  unfold setStatus
  rw [List.map_map]
  apply List.map_congr_left
  intro w _
  by_cases h : w.wid = wid <;> simp [h]

/-- Elements of a status rewrite come from the original list. -/
theorem mem_of_mem_setStatus (ws : List AckWaiter) (wid : Nat) (st : WStatus)
    (w' : AckWaiter) (h : w' ∈ setStatus ws wid st) :
    ∃ w ∈ ws, w' = if w.wid = wid then { w with status := st } else w := by
  obtain ⟨w, hw, he⟩ := List.mem_map.mp h
  exact ⟨w, hw, he.symm⟩

/-- Every original element survives a status rewrite with its id and opcode. -/
theorem mem_setStatus_of_mem (ws : List AckWaiter) (wid : Nat) (st : WStatus)
    (w : AckWaiter) (h : w ∈ ws) :
    ∃ w' ∈ setStatus ws wid st, w'.wid = w.wid ∧ w'.opcode = w.opcode := by
  refine ⟨if w.wid = wid then { w with status := st } else w,
    List.mem_map_of_mem _ h, ?_⟩
  by_cases hw : w.wid = wid <;> simp [hw]

/-- A found waiter is a member carrying the looked-up id. -/
theorem findW_mem (ws : List AckWaiter) (wid : Nat) (w : AckWaiter)
    (h : findW ws wid = some w) : w ∈ ws ∧ w.wid = wid := by
  induction ws with
  | nil => cases h
  | cons a ws ih =>
    unfold findW at h
    by_cases ha : a.wid = wid
    · rw [if_pos ha] at h
      cases h
      exact ⟨List.mem_cons_self _ _, ha⟩
    · rw [if_neg ha] at h
      obtain ⟨h1, h2⟩ := ih h
      exact ⟨List.mem_cons_of_mem _ h1, h2⟩

/-- With unique ids, looking up a member's id finds exactly that member. -/
theorem findW_of_mem_nodup (ws : List AckWaiter) (w : AckWaiter)
    (hmem : w ∈ ws) (hnd : (ws.map AckWaiter.wid).Nodup) :
    findW ws w.wid = some w := by
  induction ws with
  | nil => cases hmem
  | cons a ws ih =>
    rw [List.map_cons, List.nodup_cons] at hnd
    rcases List.mem_cons.mp hmem with rfl | hmem'
    · unfold findW
      rw [if_pos rfl]
    · unfold findW
      by_cases ha : a.wid = w.wid
      · exfalso
        apply hnd.1
        rw [ha]
        exact List.mem_map_of_mem _ hmem'
      · rw [if_neg ha]
        exact ih hmem' hnd.2

/-- A lookup that succeeds on the left part of an append still succeeds. -/
theorem findW_append_left (ws l2 : List AckWaiter) (wid : Nat) (w : AckWaiter)
    (h : findW ws wid = some w) : findW (ws ++ l2) wid = some w := by
  induction ws with
  | nil => cases h
  | cons a ws ih =>
    rw [List.cons_append]
    simp only [findW] at h ⊢
    by_cases ha : a.wid = wid
    · rwa [if_pos ha] at h ⊢
    · rw [if_neg ha] at h ⊢
      exact ih h

/-- Status rewrites act pointwise under lookup by id. -/
theorem findW_setStatus (ws : List AckWaiter) (wid wid' : Nat) (st : WStatus) :
    findW (setStatus ws wid' st) wid =
      (findW ws wid).map
        (fun w => if w.wid = wid' then { w with status := st } else w) := by
  induction ws with
  | nil => rfl
  | cons w ws ih =>
    simp only [setStatus, List.map_cons] at ih ⊢
    by_cases h : w.wid = wid
    · subst h
      by_cases h2 : w.wid = wid'
      · simp [findW, h2]
      · simp [findW, h2]
    · by_cases h2 : w.wid = wid'
      · simp only [if_pos h2, findW]
        rw [if_neg (show ¬({ w with status := st } : AckWaiter).wid = wid from h),
          if_neg h]
        exact ih
      · simp only [if_neg h2, findW]
        rw [if_neg h, if_neg h]
        exact ih

/-- Filtering away one key leaves lookups of other keys unchanged. -/
theorem lookupTable_filter_ne (t : List (Nat × Nat)) (op op' : Nat)
    (h : op' ≠ op) :
    lookupTable (t.filter (fun e => e.1 != op)) op' = lookupTable t op' := by
  induction t with
  | nil => rfl
  | cons e t ih =>
    rw [List.filter_cons]
    by_cases he : e.1 = op
    · rw [if_neg (by simp [he])]
      rw [ih]
      simp only [lookupTable]
      rw [if_neg (by rw [he]; exact fun hh => h hh.symm)]
    · rw [if_pos (by simp [he])]
      simp only [lookupTable]
      by_cases he' : e.1 = op'
      · rw [if_pos he', if_pos he']
      · rw [if_neg he', if_neg he']
        exact ih

/-- Popping a key removes it from the table. -/
theorem lookupTable_removeTable_self (t : List (Nat × Nat)) (op : Nat) :
    lookupTable (removeTable t op) op = none := by
  unfold removeTable
  induction t with
  | nil => rfl
  | cons e t ih =>
    rw [List.filter_cons]
    by_cases he : e.1 = op
    · rw [if_neg (by simp [he])]
      exact ih
    · rw [if_pos (by simp [he])]
      simp only [lookupTable]
      rw [if_neg he]
      exact ih

/-- Popping a key leaves the other keys in place. -/
theorem lookupTable_removeTable_ne (t : List (Nat × Nat)) (op op' : Nat)
    (h : op' ≠ op) :
    lookupTable (removeTable t op) op' = lookupTable t op' :=
  lookupTable_filter_ne t op op' h

/-- Overwriting a key makes its lookup return the new value. -/
theorem lookupTable_setTable_self (t : List (Nat × Nat)) (op wid : Nat) :
    lookupTable (setTable t op wid) op = some wid := by
  unfold setTable
  induction t with
  | nil => simp [lookupTable]
  | cons e t ih =>
    rw [List.filter_cons]
    by_cases he : e.1 = op
    · rw [if_neg (by simp [he])]
      exact ih
    · rw [if_pos (by simp [he]), List.cons_append]
      simp only [lookupTable]
      rw [if_neg he]
      exact ih

/-- Overwriting a key leaves the other keys in place. -/
theorem lookupTable_setTable_ne (t : List (Nat × Nat)) (op wid op' : Nat)
    (h : op' ≠ op) :
    lookupTable (setTable t op wid) op' = lookupTable t op' := by
  unfold setTable
  induction t with
  | nil =>
    simp only [List.filter_nil, List.nil_append, lookupTable]
    rw [if_neg (fun hh => h hh.symm)]
  | cons e t ih =>
    rw [List.filter_cons]
    by_cases he : e.1 = op
    · rw [if_neg (by simp [he])]
      rw [ih]
      simp only [lookupTable]
      rw [if_neg (by rw [he]; exact fun hh => h hh.symm)]
    · rw [if_pos (by simp [he]), List.cons_append]
      simp only [lookupTable]
      by_cases he' : e.1 = op'
      · rw [if_pos he', if_pos he']
      · rw [if_neg he', if_neg he']
        exact ih

/-- Looking up a member's status under unique ids. -/
theorem statusOf_of_mem (s : AckState) (w : AckWaiter)
    (hmem : w ∈ s.waiters) (hnd : (s.waiters.map AckWaiter.wid).Nodup) :
    s.statusOf w.wid = some w.status := by
  unfold AckState.statusOf
  rw [findW_of_mem_nodup s.waiters w hmem hnd]
  rfl

/-- `cancelOld` is the identity when no waiter is registered. -/
theorem cancelOld_eq_none (s : AckState) (op : Nat)
    (hl : lookupTable s.table op = none) : cancelOld s op = s := by
  unfold cancelOld
  rw [hl]

/-- `cancelOld` is the identity when the registered waiter is done. -/
theorem cancelOld_eq_notpending (s : AckState) (op : Nat) (wid : Nat)
    (hl : lookupTable s.table op = some wid)
    (hst : s.statusOf wid ≠ some WStatus.pending) : cancelOld s op = s := by
  cases hs : s.statusOf wid with
  | none =>
    unfold cancelOld
    simp only [hl, hs]
  | some st =>
    cases st with
    | pending => exact absurd hs hst
    | cancelled =>
      unfold cancelOld
      simp only [hl, hs]
    | resolved p =>
      unfold cancelOld
      simp only [hl, hs]

/-- `cancelOld` cancels the registered waiter when it is still pending. -/
theorem cancelOld_eq_pending (s : AckState) (op : Nat) (wid : Nat)
    (hl : lookupTable s.table op = some wid)
    (hst : s.statusOf wid = some WStatus.pending) :
    cancelOld s op =
      { s with waiters := setStatus s.waiters wid WStatus.cancelled } := by
  unfold cancelOld
  simp only [hl, hst]

/-- Rewriting some waiter's status to cancelled preserves the invariant. -/
theorem ackInv_setStatus_cancelled (s : AckState) (wid : Nat) (h : AckInv s) :
    AckInv { s with waiters := setStatus s.waiters wid WStatus.cancelled } := by
  obtain ⟨hid, hnd, htw, hpt⟩ := h
  refine ⟨?_, ?_, ?_, ?_⟩
  · intro w' hw'
    obtain ⟨w, hw, he⟩ := mem_of_mem_setStatus _ _ _ _ hw'
    subst he
    by_cases hww : w.wid = wid
    · simpa [hww] using hid w hw
    · simpa [hww] using hid w hw
  · show ((setStatus s.waiters wid WStatus.cancelled).map AckWaiter.wid).Nodup
    rw [setStatus_map_wid]
    exact hnd
  · intro op wid' hl
    obtain ⟨w, hw, hwid, hop⟩ := htw op wid' hl
    obtain ⟨w', hw', hwid', hop'⟩ :=
      mem_setStatus_of_mem s.waiters wid WStatus.cancelled w hw
    exact ⟨w', hw', by rw [hwid', hwid], by rw [hop', hop]⟩
  · intro w' hw' hp
    obtain ⟨w, hw, he⟩ := mem_of_mem_setStatus _ _ _ _ hw'
    subst he
    by_cases hww : w.wid = wid
    · simp [hww] at hp
    · simp only [if_neg hww] at hp ⊢
      exact hpt w hw hp

/-- `cancelOld` either leaves the state alone or cancels the one pending
registered waiter. -/
theorem cancelOld_split (s : AckState) (op : Nat) :
    cancelOld s op = s
    ∨ ∃ wid, lookupTable s.table op = some wid
        ∧ s.statusOf wid = some WStatus.pending
        ∧ cancelOld s op =
            { s with waiters := setStatus s.waiters wid WStatus.cancelled } := by
  cases hl : lookupTable s.table op with
  | none => exact Or.inl (cancelOld_eq_none s op hl)
  | some wid =>
    by_cases hst : s.statusOf wid = some WStatus.pending
    · exact Or.inr ⟨wid, rfl, hst, cancelOld_eq_pending s op wid hl hst⟩
    · exact Or.inl (cancelOld_eq_notpending s op wid hl hst)

/-- `cancelOld` never touches the table. -/
theorem cancelOld_table (s : AckState) (op : Nat) :
    (cancelOld s op).table = s.table := by
  rcases cancelOld_split s op with heq | ⟨wid, _, _, heq⟩ <;> rw [heq]

/-- `cancelOld` never touches the id supply. -/
theorem cancelOld_nextId (s : AckState) (op : Nat) :
    (cancelOld s op).nextId = s.nextId := by
  rcases cancelOld_split s op with heq | ⟨wid, _, _, heq⟩ <;> rw [heq]

/-- `cancelOld` preserves the registry invariant. -/
theorem ackInv_cancelOld (s : AckState) (op : Nat) (h : AckInv s) :
    AckInv (cancelOld s op) := by
  rcases cancelOld_split s op with heq | ⟨wid, _, _, heq⟩
  · rwa [heq]
  · rw [heq]
    exact ackInv_setStatus_cancelled s wid h

/-- After `cancelOld s op`, no pending waiter has opcode `op`, and every
pending waiter is still the one its table entry points at. -/
theorem cancelOld_pending (s : AckState) (op : Nat) (h : AckInv s) :
    ∀ w ∈ (cancelOld s op).waiters, w.status = WStatus.pending →
      w.opcode ≠ op ∧ lookupTable s.table w.opcode = some w.wid := by
  obtain ⟨hid, hnd, htw, hpt⟩ := h
  cases hl : lookupTable s.table op with
  | none =>
    rw [cancelOld_eq_none s op hl]
    intro w hw hp
    have hlw := hpt w hw hp
    refine ⟨?_, hlw⟩
    intro hop
    rw [hop, hl] at hlw
    cases hlw
  | some wid =>
    by_cases hst : s.statusOf wid = some WStatus.pending
    · rw [cancelOld_eq_pending s op wid hl hst]
      intro w' hw' hp
      obtain ⟨w, hw, he⟩ := mem_of_mem_setStatus _ _ _ _ hw'
      subst he
      by_cases hww : w.wid = wid
      · simp [hww] at hp
      · simp only [if_neg hww] at hp ⊢
        have hlw := hpt w hw hp
        refine ⟨?_, hlw⟩
        intro hop
        rw [hop, hl] at hlw
        exact hww (Option.some.inj hlw).symm
    · rw [cancelOld_eq_notpending s op wid hl hst]
      intro w hw hp
      have hlw := hpt w hw hp
      refine ⟨?_, hlw⟩
      intro hop
      rw [hop, hl] at hlw
      apply hst
      rw [Option.some.inj hlw, statusOf_of_mem s w hw hnd, hp]

/-- Unfolding of the arm transition. -/
theorem step_arm_eq (s : AckState) (op : Nat) :
    s.step (AckOp.arm op) =
      { waiters := (cancelOld s op).waiters
          ++ [⟨s.nextId, op, WStatus.pending⟩]
        table := setTable (cancelOld s op).table op s.nextId
        nextId := s.nextId + 1 } := rfl

/-- Every registry transition preserves the invariant. -/
theorem ackInv_step (s : AckState) (o : AckOp) (h : AckInv s) :
    AckInv (s.step o) := by
  cases o with
  | arm op =>
    obtain ⟨hid1, hnd1, htw1, hpt1⟩ := ackInv_cancelOld s op h
    have htab := cancelOld_table s op
    have hnid := cancelOld_nextId s op
    have hpend := cancelOld_pending s op h
    rw [step_arm_eq]
    refine ⟨?_, ?_, ?_, ?_⟩
    · intro w hw
      rcases List.mem_append.mp hw with hw1 | hw2
      · have := hid1 w hw1
        rw [hnid] at this
        show w.wid < s.nextId + 1
        omega
      · rw [List.mem_singleton] at hw2
        subst hw2
        show s.nextId < s.nextId + 1
        omega
    · show ((((cancelOld s op).waiters)
        ++ [(⟨s.nextId, op, WStatus.pending⟩ : AckWaiter)]).map
          AckWaiter.wid).Nodup
      rw [List.map_append]
      rw [List.nodup_append]
      refine ⟨hnd1, List.nodup_singleton _, ?_⟩
      intro x hx hx2
      rw [List.map_singleton, List.mem_singleton] at hx2
      have hx3 : x = s.nextId := hx2
      subst hx3
      obtain ⟨w, hw, hwx⟩ := List.mem_map.mp hx
      have := hid1 w hw
      rw [hnid, hwx] at this
      omega
    · intro op' wid' hl
      by_cases hop : op' = op
      · subst hop
        rw [lookupTable_setTable_self] at hl
        have hww : wid' = s.nextId := (Option.some.inj hl).symm
        subst hww
        exact ⟨⟨s.nextId, op', WStatus.pending⟩,
          List.mem_append_right _ (List.mem_singleton_self _), rfl, rfl⟩
      · rw [lookupTable_setTable_ne _ _ _ _ hop] at hl
        obtain ⟨w, hw, hwid, hop2⟩ := htw1 op' wid' hl
        exact ⟨w, List.mem_append_left _ hw, hwid, hop2⟩
    · intro w' hw' hp
      rcases List.mem_append.mp hw' with hw1 | hw2
      · obtain ⟨hne, hlw⟩ := hpend w' hw1 hp
        show lookupTable (setTable (cancelOld s op).table op s.nextId)
          w'.opcode = some w'.wid
        rw [lookupTable_setTable_ne _ _ _ _ hne, htab]
        exact hlw
      · rw [List.mem_singleton] at hw2
        subst hw2
        exact lookupTable_setTable_self _ _ _
  | notify op payload =>
    obtain ⟨hid, hnd, htw, hpt⟩ := h
    cases hl : lookupTable s.table op with
    | none =>
      have heq : s.step (AckOp.notify op payload) = s := by
        unfold AckState.step
        simp only [hl]
      rw [heq]
      exact ⟨hid, hnd, htw, hpt⟩
    | some wid =>
      by_cases hst : s.statusOf wid = some WStatus.pending
      · have heq : s.step (AckOp.notify op payload) =
            { s with table := removeTable s.table op,
                     waiters :=
                       setStatus s.waiters wid (WStatus.resolved payload) } := by
          unfold AckState.step
          simp only [hl, hst]
        rw [heq]
        refine ⟨?_, ?_, ?_, ?_⟩
        · intro w' hw'
          obtain ⟨w, hw, he⟩ := mem_of_mem_setStatus _ _ _ _ hw'
          subst he
          by_cases hww : w.wid = wid
          · simpa [hww] using hid w hw
          · simpa [hww] using hid w hw
        · show ((setStatus s.waiters wid
            (WStatus.resolved payload)).map AckWaiter.wid).Nodup
          rw [setStatus_map_wid]
          exact hnd
        · intro op' wid' hl'
          by_cases hop : op' = op
          · subst hop
            rw [lookupTable_removeTable_self] at hl'
            cases hl'
          · rw [lookupTable_removeTable_ne _ _ _ hop] at hl'
            obtain ⟨w, hw, hwid, hop2⟩ := htw op' wid' hl'
            obtain ⟨w2, hw2, hwid2, hop3⟩ := mem_setStatus_of_mem s.waiters wid
              (WStatus.resolved payload) w hw
            exact ⟨w2, hw2, by rw [hwid2, hwid], by rw [hop3, hop2]⟩
        · intro w' hw' hp
          obtain ⟨w, hw, he⟩ := mem_of_mem_setStatus _ _ _ _ hw'
          subst he
          by_cases hww : w.wid = wid
          · simp [hww] at hp
          · simp only [if_neg hww] at hp ⊢
            have hlw := hpt w hw hp
            have hne : w.opcode ≠ op := by
              intro hop
              rw [hop, hl] at hlw
              exact hww (Option.some.inj hlw).symm
            rw [lookupTable_removeTable_ne _ _ _ hne]
            exact hlw
      · have heq : s.step (AckOp.notify op payload) =
            { s with table := removeTable s.table op } := by
          unfold AckState.step
          cases hs2 : s.statusOf wid with
          | none => simp only [hl, hs2]
          | some st =>
            cases st with
            | pending => exact absurd hs2 hst
            | cancelled => simp only [hl, hs2]
            | resolved p => simp only [hl, hs2]
        rw [heq]
        refine ⟨hid, hnd, ?_, ?_⟩
        · intro op' wid' hl'
          by_cases hop : op' = op
          · subst hop
            rw [lookupTable_removeTable_self] at hl'
            cases hl'
          · rw [lookupTable_removeTable_ne _ _ _ hop] at hl'
            exact htw op' wid' hl'
        · intro w hw hp
          have hlw := hpt w hw hp
          have hne : w.opcode ≠ op := by
            intro hop
            rw [hop, hl] at hlw
            apply hst
            rw [Option.some.inj hlw, statusOf_of_mem s w hw hnd, hp]
          rw [lookupTable_removeTable_ne _ _ _ hne]
          exact hlw
  | timeoutCancel wid =>
    by_cases hst : s.statusOf wid = some WStatus.pending
    · have heq : s.step (AckOp.timeoutCancel wid) =
          { s with waiters := setStatus s.waiters wid WStatus.cancelled } := by
        unfold AckState.step
        simp only [hst]
      rw [heq]
      exact ackInv_setStatus_cancelled s wid h
    · have heq : s.step (AckOp.timeoutCancel wid) = s := by
        unfold AckState.step
        cases hs2 : s.statusOf wid with
        | none => simp only [hs2]
        | some st =>
          cases st with
          | pending => exact absurd hs2 hst
          | cancelled => simp only [hs2]
          | resolved p => simp only [hs2]
      rw [heq]
      exact h

/-- A cancelled waiter stays cancelled across any single transition: no
later notification (or anything else) ever resolves it. -/
theorem cancelled_step (s : AckState) (o : AckOp) (hinv : AckInv s)
    (wid : Nat) (h : s.statusOf wid = some WStatus.cancelled) :
    (s.step o).statusOf wid = some WStatus.cancelled := by
  obtain ⟨hid, hnd, htw, hpt⟩ := hinv
  unfold AckState.statusOf at h
  cases hf : findW s.waiters wid with
  | none =>
    rw [hf] at h
    cases h
  | some w =>
    rw [hf] at h
    have hws : w.status = WStatus.cancelled := by simpa using h
    obtain ⟨hmem, hwid⟩ := findW_mem s.waiters wid w hf
    cases o with
    | arm op =>
      rw [step_arm_eq]
      rcases cancelOld_split s op with heq | ⟨wid0, hl0, hst0, heq⟩
      · have hwt : (cancelOld s op).waiters = s.waiters := by rw [heq]
        show (findW ((cancelOld s op).waiters
          ++ [(⟨s.nextId, op, WStatus.pending⟩ : AckWaiter)]) wid).map
            AckWaiter.status = some WStatus.cancelled
        rw [hwt, findW_append_left _ _ _ _ hf]
        simp [hws]
      · have hwt : (cancelOld s op).waiters =
            setStatus s.waiters wid0 WStatus.cancelled := by rw [heq]
        show (findW ((cancelOld s op).waiters
          ++ [(⟨s.nextId, op, WStatus.pending⟩ : AckWaiter)]) wid).map
            AckWaiter.status = some WStatus.cancelled
        rw [hwt]
        have hf2 : findW (setStatus s.waiters wid0 WStatus.cancelled) wid =
            some (if w.wid = wid0 then { w with status := WStatus.cancelled }
              else w) := by
          rw [findW_setStatus, hf]
          rfl
        rw [findW_append_left _ _ _ _ hf2]
        by_cases hww : w.wid = wid0 <;> simp [hww, hws]
    | notify op payload =>
      cases hl : lookupTable s.table op with
      | none =>
        have heq : s.step (AckOp.notify op payload) = s := by
          unfold AckState.step
          simp only [hl]
        rw [heq]
        unfold AckState.statusOf
        rw [hf]
        simp [hws]
      | some wid1 =>
        by_cases hst : s.statusOf wid1 = some WStatus.pending
        · have hne : wid1 ≠ wid := by
            intro hww
            rw [hww] at hst
            unfold AckState.statusOf at hst
            rw [hf] at hst
            simp [hws] at hst
          have heq : s.step (AckOp.notify op payload) =
              { s with table := removeTable s.table op,
                       waiters := setStatus s.waiters wid1
                         (WStatus.resolved payload) } := by
            unfold AckState.step
            simp only [hl, hst]
          rw [heq]
          show (findW (setStatus s.waiters wid1 (WStatus.resolved payload))
            wid).map AckWaiter.status = some WStatus.cancelled
          rw [findW_setStatus, hf]
          have hne2 : ¬ w.wid = wid1 := by
            rw [hwid]
            exact fun hh => hne hh.symm
          simp [hne2, hws]
        · have heq : s.step (AckOp.notify op payload) =
              { s with table := removeTable s.table op } := by
            unfold AckState.step
            cases hs2 : s.statusOf wid1 with
            | none => simp only [hl, hs2]
            | some st =>
              cases st with
              | pending => exact absurd hs2 hst
              | cancelled => simp only [hl, hs2]
              | resolved p => simp only [hl, hs2]
          rw [heq]
          show (findW s.waiters wid).map AckWaiter.status =
            some WStatus.cancelled
          rw [hf]
          simp [hws]
    | timeoutCancel wid2 =>
      by_cases hst : s.statusOf wid2 = some WStatus.pending
      · have heq : s.step (AckOp.timeoutCancel wid2) =
            { s with waiters := setStatus s.waiters wid2 WStatus.cancelled } := by
          unfold AckState.step
          simp only [hst]
        rw [heq]
        show (findW (setStatus s.waiters wid2 WStatus.cancelled) wid).map
          AckWaiter.status = some WStatus.cancelled
        rw [findW_setStatus, hf]
        by_cases hww : w.wid = wid2 <;> simp [hww, hws]
      · have heq : s.step (AckOp.timeoutCancel wid2) = s := by
          unfold AckState.step
          cases hs2 : s.statusOf wid2 with
          | none => simp only [hs2]
          | some st =>
            cases st with
            | pending => exact absurd hs2 hst
            | cancelled => simp only [hs2]
            | resolved p => simp only [hs2]
        rw [heq]
        unfold AckState.statusOf
        rw [hf]
        simp [hws]

/-- The empty registry satisfies the invariant. -/
theorem ackInv_init : AckInv AckState.init := by
  refine ⟨?_, ?_, ?_, ?_⟩
  · intro w hw
    cases hw
  · exact List.nodup_nil
  · intro op wid hl
    exact Option.noConfusion hl
  · intro w hw
    cases hw

/-- Folding transitions preserves the invariant. -/
theorem ackInv_foldl (ops : List AckOp) (s : AckState) (h : AckInv s) :
    AckInv (ops.foldl AckState.step s) := by
  induction ops generalizing s with
  | nil => exact h
  | cons o ops ih => exact ih _ (ackInv_step s o h)

/-- Every reachable registry state satisfies the invariant. -/
theorem ackInv_runOps (ops : List AckOp) : AckInv (runOps ops) :=
  ackInv_foldl ops AckState.init ackInv_init

/-- A cancelled waiter stays cancelled across any suffix of operations. -/
theorem cancelled_foldl (more : List AckOp) (s : AckState) (hinv : AckInv s)
    (wid : Nat) (h : s.statusOf wid = some WStatus.cancelled) :
    (more.foldl AckState.step s).statusOf wid = some WStatus.cancelled := by
  induction more generalizing s with
  | nil => exact h
  | cons o more ih =>
    exact ih _ (ackInv_step s o hinv) (cancelled_step s o hinv wid h)

/-- Under the invariant there is at most one pending waiter per opcode. -/
theorem ack_single_pending (s : AckState) (hinv : AckInv s) :
    ∀ w1 ∈ s.waiters, ∀ w2 ∈ s.waiters, w1.status = WStatus.pending →
      w2.status = WStatus.pending → w1.opcode = w2.opcode → w1 = w2 := by
  intro w1 h1 w2 h2 hp1 hp2 hop
  obtain ⟨hid, hnd, htw, hpt⟩ := hinv
  have l1 := hpt w1 h1 hp1
  have l2 := hpt w2 h2 hp2
  rw [hop] at l1
  rw [l2] at l1
  have hww : w2.wid = w1.wid := Option.some.inj l1
  have f1 := findW_of_mem_nodup s.waiters w1 h1 hnd
  have f2 := findW_of_mem_nodup s.waiters w2 h2 hnd
  rw [← hww] at f1
  rw [f2] at f1
  exact (Option.some.inj f1).symm

/-- Arming an opcode that has a live pending waiter cancels that waiter. -/
theorem ack_arm_cancels (s : AckState) (hinv : AckInv s) (w : AckWaiter)
    (hw : w ∈ s.waiters) (hp : w.status = WStatus.pending) :
    (s.step (AckOp.arm w.opcode)).statusOf w.wid =
      some WStatus.cancelled := by
  have hnd := hinv.2.1
  have hl : lookupTable s.table w.opcode = some w.wid := hinv.2.2.2 w hw hp
  have hso : s.statusOf w.wid = some WStatus.pending := by
    rw [statusOf_of_mem s w hw hnd, hp]
  have heq := cancelOld_eq_pending s w.opcode w.wid hl hso
  have hwt : (cancelOld s w.opcode).waiters =
      setStatus s.waiters w.wid WStatus.cancelled := by rw [heq]
  rw [step_arm_eq]
  show (findW ((cancelOld s w.opcode).waiters
    ++ [(⟨s.nextId, w.opcode, WStatus.pending⟩ : AckWaiter)]) w.wid).map
      AckWaiter.status = some WStatus.cancelled
  rw [hwt]
  have hfind : findW (setStatus s.waiters w.wid WStatus.cancelled) w.wid =
      some { w with status := WStatus.cancelled } := by
    rw [findW_setStatus]
    rw [findW_of_mem_nodup s.waiters w hw hnd]
    simp
  rw [findW_append_left _ _ _ _ hfind]
  rfl

/-- C1: the round-trip `decode (encode cfg) = cfg` fails for legal
configurations with a negative timezone sign: `to_bytes` floor-divides the
*signed* `timezone_offset` property by 6 and then feeds the negative result
to `bytes([...])`, which raises.  The concrete legal configuration decoded
from `cfgFrameNeg` (timezone -60 minutes) makes `to_bytes` fail, while the
positive-sign twin round-trips exactly. -/
theorem configuration_roundtrip_negative_tz_bug :
    Configuration.ofBytes cfgFrameNeg = some cfgNeg
    ∧ cfgNeg.legal
    ∧ cfgNeg.timezone_offset = -60
    ∧ cfgNeg.to_bytes = none
    ∧ Configuration.ofBytes cfgFramePos = some cfgPos
    ∧ cfgPos.legal
    ∧ cfgPos.roundTrip = some cfgPos := by
  decide

/-- C2 counterexample: the `timezone_offset` setter accepts 7, a value that
is not a multiple of 6, contradicting the claim that every non-multiple of
6 is rejected. -/
theorem timezone_setter_accepts_non_multiple_of_six :
    (cfgPos.timezone_offset_set 7).isSome = true := by
  decide

/-- C2 (amended): the `timezone_offset` setter accepts exactly the values of
magnitude at most 720 (both signs, so ±720 accepted and ±726 rejected) and
performs no multiple-of-6 check. -/
theorem timezone_setter_range (c : Configuration) (value : Int) :
    (c.timezone_offset_set value).isSome ↔ -720 ≤ value ∧ value ≤ 720 := by
  unfold Configuration.timezone_offset_set
  split
  · simp only [Option.isSome_none, Bool.false_eq_true, false_iff]
    omega
  · simp only [Option.isSome_some, true_iff]
    omega

/-- C7 counterexample: the `daytime_brightness` setter rejects 0 and accepts
5, contradicting the claim that the setters accept 0 and reject 5. -/
theorem brightness_setter_rejects_zero_accepts_five :
    cfgPos.daytime_brightness_set 0 = none
    ∧ (cfgPos.daytime_brightness_set 5).isSome = true
    ∧ cfgPos.nighttime_brightness_set 0 = none
    ∧ (cfgPos.nighttime_brightness_set 5).isSome = true := by
  decide

/-- C7 (amended): the two brightness setters accept exactly 1-100 (so 100 is
accepted, 0 and 105 are rejected, and 5 is accepted); the 0-100-and-
multiple-of-10 validation that accepts 0 and rejects 5 and 105 is performed
by `_brightness_to_byte` at encode time. -/
theorem brightness_validation (c : Configuration) (value : Int) :
    ((c.daytime_brightness_set value).isSome ↔ 1 ≤ value ∧ value ≤ 100)
    ∧ ((c.nighttime_brightness_set value).isSome ↔ 1 ≤ value ∧ value ≤ 100)
    ∧ (∀ d n : Nat, (brightness_to_byte d n).isSome ↔
        d ≤ 100 ∧ d % 10 = 0 ∧ n ≤ 100 ∧ n % 10 = 0) := by
  refine ⟨?_, ?_, ?_⟩
  · unfold Configuration.daytime_brightness_set
    split
    · simp only [Option.isSome_none, Bool.false_eq_true, false_iff]
      omega
    · simp only [Option.isSome_some, true_iff]
      omega
  · unfold Configuration.nighttime_brightness_set
    split
    · simp only [Option.isSome_none, Bool.false_eq_true, false_iff]
      omega
    · simp only [Option.isSome_some, true_iff]
      omega
  · intro d n
    unfold brightness_to_byte
    split
    · simp only [Option.isSome_none, Bool.false_eq_true, false_iff]
      omega
    · split
      · simp only [Option.isSome_none, Bool.false_eq_true, false_iff]
        omega
      · simp only [Option.isSome_some, true_iff]
        omega

/-- C8 counterexample: the `screen_light_time` setter rejects 0, contradicting
the claim that 0 (meaning off) is accepted. -/
theorem backlight_setter_rejects_zero :
    cfgPos.screen_light_time_set 0 = none := by
  decide

/-- C8 (amended): the `screen_light_time` setter accepts exactly 1-30 and
rejects everything else, including 0; a backlight of 0 can only be stored by
bypassing the setter (the CLI writes the private field directly). -/
theorem backlight_setter_range (c : Configuration) (value : Int) :
    (c.screen_light_time_set value).isSome ↔ 1 ≤ value ∧ value ≤ 30 := by
  unfold Configuration.screen_light_time_set
  split
  · simp only [Option.isSome_none, Bool.false_eq_true, false_iff]
    omega
  · simp only [Option.isSome_some, true_iff]
    omega

/-- C3: encoding an alarm with any absent field emits the all-0xFF slot
payload regardless of the other fields; a fully configured alarm decodes
from its own encoding with all five fields intact; and deactivating an
unconfigured alarm re-encodes to the very same sentinel frame. -/
theorem alarm_codec_roundtrip (a : Alarm) (hslot : a.slot < 256)
    (hhour : a.hour.getD 0 < 256) (hmin : a.minute.getD 0 < 256)
    (hdays : (a.days.getD []).Sublist allAlarmDays) :
    (¬ a.is_configured → a.to_bytes = some ([7, 5, a.slot] ++ alarmSentinel))
    ∧ (a.is_configured → a.to_bytes.isSome
        ∧ (Alarm.ofBytes a.slot a.encodedPayload).fieldsEq a)
    ∧ (¬ a.is_configured → a.deactivate.to_bytes = a.to_bytes) := by
  refine ⟨?_, ?_, ?_⟩
  · intro h
    unfold Alarm.to_bytes
    rw [if_neg h, bytesOfInts_eq_some]
    · simp [alarmSentinel]
    · intro x hx
      simp only [List.mem_cons, List.not_mem_nil, or_false] at hx
      rcases hx with rfl | rfl | rfl | rfl | rfl | rfl | rfl | rfl <;> omega
  · intro h
    obtain ⟨e, he⟩ := Option.isSome_iff_exists.mp h.1
    obtain ⟨hr, hhr⟩ := Option.isSome_iff_exists.mp h.2.1
    obtain ⟨mn, hmn⟩ := Option.isSome_iff_exists.mp h.2.2.1
    obtain ⟨ds, hds⟩ := Option.isSome_iff_exists.mp h.2.2.2.1
    obtain ⟨sn, hsn⟩ := Option.isSome_iff_exists.mp h.2.2.2.2
    rw [hhr] at hhour
    rw [hmn] at hmin
    rw [hds] at hdays
    simp only [Option.getD_some] at hhour hmin hdays
    have hbm : days_to_bitmask ds < 256 := days_to_bitmask_lt ds hdays
    have hbytes : a.to_bytes = some [7, 5, a.slot, if e then 1 else 0, hr,
        mn, days_to_bitmask ds, if sn then 1 else 0] := by
      unfold Alarm.to_bytes
      rw [if_pos h, he, hhr, hmn, hds, hsn]
      simp only [Option.getD_some]
      rw [bytesOfInts_eq_some]
      · simp [apply_ite Int.toNat]
      · intro x hx
        simp only [List.mem_cons, List.not_mem_nil, or_false] at hx
        rcases hx with rfl | rfl | rfl | rfl | rfl | rfl | rfl | rfl <;> omega
    refine ⟨by rw [hbytes]; rfl, ?_⟩
    have hpayload : a.encodedPayload = [if e then 1 else 0, hr, mn,
        days_to_bitmask ds, if sn then 1 else 0] := by
      unfold Alarm.encodedPayload
      rw [hbytes]
      rfl
    rw [hpayload]
    unfold Alarm.ofBytes
    rw [if_neg (by cases e <;> simp [alarmSentinel])]
    unfold Alarm.fieldsEq
    refine ⟨?_, ?_, ?_, ?_, ?_⟩
    · rw [he]
      cases e <;> simp
    · rw [hhr]
      simp
    · rw [hmn]
      simp
    · rw [hds]
      simp [bitmask_to_days_days_to_bitmask ds hdays]
    · rw [hsn]
      cases sn <;> simp
  · intro h
    unfold Alarm.to_bytes
    have hd : ¬ (Alarm.deactivate a).is_configured := by
      simp [Alarm.deactivate, Alarm.is_configured]
    rw [if_neg h, if_neg hd]
    rfl

/-- C3 witness: the round-trip theorem applied to the configured alarm
decoded from `[1, 7, 30, 5, 0]` in slot 3 and to the stale-but-unconfigured
alarm `alarmStale`. -/
theorem alarm_codec_roundtrip_witness :
    ((Alarm.ofBytes 3 [1, 7, 30, 5, 0]).to_bytes.isSome
      ∧ (Alarm.ofBytes 3 (Alarm.ofBytes 3 [1, 7, 30, 5, 0]).encodedPayload).fieldsEq
          (Alarm.ofBytes 3 [1, 7, 30, 5, 0]))
    ∧ alarmStale.to_bytes = some ([7, 5, 4] ++ alarmSentinel)
    ∧ alarmStale.deactivate.to_bytes = alarmStale.to_bytes := by
  refine ⟨?_, ?_, ?_⟩
  · exact (alarm_codec_roundtrip (Alarm.ofBytes 3 [1, 7, 30, 5, 0])
      (by decide) (by decide) (by decide) (by decide)).2.1 (by decide)
  · exact (alarm_codec_roundtrip alarmStale
      (by decide) (by decide) (by decide) (by decide)).1 (by decide)
  · exact (alarm_codec_roundtrip alarmStale
      (by decide) (by decide) (by decide) (by decide)).2.2 (by decide)

/-- C10: constructing an alarm from a 5-byte payload leaves all five logical
fields absent exactly for the all-0xFF sentinel and makes all five present
for every other payload; `is_configured` holds iff the payload differs from
the sentinel.  No decoded alarm is partially configured. -/
theorem alarm_decode_all_or_nothing (slot : Nat) (bs : List Nat)
    (_hlen : bs.length = 5) :
    ((Alarm.ofBytes slot bs).is_configured ↔ bs ≠ alarmSentinel)
    ∧ (bs = alarmSentinel → Alarm.ofBytes slot bs =
        { slot := slot, is_enabled := none, hour := none, minute := none,
          days := none, snooze := none })
    ∧ (bs ≠ alarmSentinel → (Alarm.ofBytes slot bs).is_enabled.isSome
        ∧ (Alarm.ofBytes slot bs).hour.isSome
        ∧ (Alarm.ofBytes slot bs).minute.isSome
        ∧ (Alarm.ofBytes slot bs).days.isSome
        ∧ (Alarm.ofBytes slot bs).snooze.isSome) := by
  by_cases hs : bs = alarmSentinel <;>
    simp [Alarm.ofBytes, hs, Alarm.is_configured]

/-- C10 witness: the all-or-nothing theorem applied to the sentinel payload
and to a non-sentinel payload in concrete slots. -/
theorem alarm_decode_all_or_nothing_witness :
    ((Alarm.ofBytes 0 [0, 1, 2, 3, 4]).is_configured ↔
      [0, 1, 2, 3, 4] ≠ alarmSentinel)
    ∧ Alarm.ofBytes 7 alarmSentinel =
        { slot := 7, is_enabled := none, hour := none, minute := none,
          days := none, snooze := none } := by
  refine ⟨?_, ?_⟩
  · exact (alarm_decode_all_or_nothing 0 [0, 1, 2, 3, 4] (by decide)).1
  · exact (alarm_decode_all_or_nothing 7 alarmSentinel (by decide)).2.1
      (by decide)

/-- C9: `choose_next_custom_slot` sends DEAD to BEEF and BEEF to DEAD (its
second iterate is the identity on the two custom slots and its output always
differs from a custom-slot input), and every other input — including an
absent signature — maps to DEAD. -/
theorem choose_next_custom_slot_alternates (s : Option (List Nat)) :
    choose_next_custom_slot (some CUSTOM_SLOT_DEAD) = CUSTOM_SLOT_BEEF
    ∧ choose_next_custom_slot (some CUSTOM_SLOT_BEEF) = CUSTOM_SLOT_DEAD
    ∧ (s ≠ some CUSTOM_SLOT_DEAD → s ≠ some CUSTOM_SLOT_BEEF →
        choose_next_custom_slot s = CUSTOM_SLOT_DEAD)
    ∧ (∀ sig, sig = CUSTOM_SLOT_DEAD ∨ sig = CUSTOM_SLOT_BEEF →
        choose_next_custom_slot (some (choose_next_custom_slot (some sig))) = sig
        ∧ choose_next_custom_slot (some sig) ≠ sig) := by
  refine ⟨by decide, by decide, ?_, ?_⟩
  · intro h1 _
    unfold choose_next_custom_slot
    rw [if_neg h1]
  · intro sig hsig
    rcases hsig with rfl | rfl <;> exact ⟨by decide, by decide⟩

/-- C9 witness: the alternation theorem applied to the absent signature and
to the DEAD slot. -/
theorem choose_next_custom_slot_alternates_witness :
    choose_next_custom_slot none = CUSTOM_SLOT_DEAD
    ∧ choose_next_custom_slot
        (some (choose_next_custom_slot (some CUSTOM_SLOT_DEAD))) =
          CUSTOM_SLOT_DEAD := by
  refine ⟨?_, ?_⟩
  · exact (choose_next_custom_slot_alternates none).2.2.1 (by decide)
      (by decide)
  · exact ((choose_next_custom_slot_alternates none).2.2.2 CUSTOM_SLOT_DEAD
      (Or.inl rfl)).1

/-- C4: for a well-formed 16-entry table and a matching `11 06` fragment:
a base index of 0 discards the accumulated table and restarts assembly; the
complete event (which also resolves the alarms wait) fires exactly when all
16 slots have been observed, and then delivers exactly 16 alarms in slot
order 0..15. -/
theorem snapshot_assembler (st : List (Option Alarm)) (payload : List Nat)
    (hst : st.length = 16) (hinv : SlotInv st)
    (hpre : payload.take 2 = [17, 6]) (hplen : 8 ≤ payload.length) :
    (payload.getD 2 0 = 0 →
      processFragment st payload =
        processFragment (List.replicate 16 none) payload)
    ∧ (∀ l, (processFragment st payload).2 = AlarmsEvent.complete l →
        countSlots (processFragment st payload).1 = 16
        ∧ l.length = 16
        ∧ ∀ i, i < 16 → (l.getD i default).slot = i)
    ∧ (16 ≤ countSlots (processFragment st payload).1 →
        (processFragment st payload).2 =
          AlarmsEvent.complete (collectFull (processFragment st payload).1)) := by
  have hcond : payload.take 2 = [17, 6] ∧ 8 ≤ payload.length := ⟨hpre, hplen⟩
  have hfst : (processFragment st payload).1 = newTable st payload := by
    unfold processFragment
    rw [if_pos hcond]
    split <;> rfl
  have hlen1 : (newTable st payload).length = 16 := newTable_length st payload hst
  have hinv1 : SlotInv (newTable st payload) := newTable_slotInv st payload hinv
  refine ⟨?_, ?_, ?_⟩
  · intro h0
    unfold processFragment newTable
    rw [h0]
    simp [hcond]
  · intro l hl
    by_cases hc : 16 ≤ countSlots (newTable st payload)
    · have hPF : processFragment st payload =
          (newTable st payload,
            AlarmsEvent.complete (collectFull (newTable st payload))) := by
        unfold processFragment
        rw [if_pos hcond, if_pos hc]
      rw [hPF] at hl
      simp only [AlarmsEvent.complete.injEq] at hl
      subst hl
      have hc16 : countSlots (newTable st payload) = 16 := by
        have := countSlots_le_length (newTable st payload)
        omega
      refine ⟨by rw [hPF]; exact hc16, by simp [collectFull], ?_⟩
      intro i hi
      rw [collectFull_getD _ i hi]
      obtain ⟨a, ha⟩ := Option.isSome_iff_exists.mp
        (countSlots_all_some _ hlen1 hc i hi)
      rw [ha]
      exact hinv1 i a ha
    · have hPF : processFragment st payload =
          (newTable st payload,
            AlarmsEvent.progress (collectSome (newTable st payload))) := by
        unfold processFragment
        rw [if_pos hcond, if_neg hc]
      rw [hPF] at hl
      cases hl
  · intro hc
    rw [hfst] at hc
    have hPF : processFragment st payload =
        (newTable st payload,
          AlarmsEvent.complete (collectFull (newTable st payload))) := by
      unfold processFragment
      rw [if_pos hcond, if_pos hc]
    rw [hPF]

/-- C4 witness: the assembler theorem applied to the mid-assembly table
`stMid` (built by the base-0 fragment `frag0`) and the base-10 fragment
`frag10`, and again to `stMid` with a repeated base-0 fragment. -/
theorem snapshot_assembler_witness :
    (∀ l, (processFragment stMid frag10).2 = AlarmsEvent.complete l →
      countSlots (processFragment stMid frag10).1 = 16
      ∧ l.length = 16
      ∧ ∀ i, i < 16 → (l.getD i default).slot = i)
    ∧ (processFragment stMid frag0 =
        processFragment (List.replicate 16 none) frag0)
    ∧ ((processFragment stMid frag10).2 =
        AlarmsEvent.complete (collectFull (processFragment stMid frag10).1)) := by
  have hinvMid : SlotInv stMid :=
    newTable_slotInv (List.replicate 16 none) frag0 slotInv_replicate
  refine ⟨?_, ?_, ?_⟩
  · exact (snapshot_assembler stMid frag10 (by decide) hinvMid
      (by decide) (by decide)).2.1
  · exact (snapshot_assembler stMid frag0 (by decide) hinvMid
      (by decide) (by decide)).1 (by decide)
  · exact (snapshot_assembler stMid frag10 (by decide) hinvMid
      (by decide) (by decide)).2.2 (by decide)

/-- C5: in every reachable registry state there is at most one live
(pending) waiter per opcode; arming a new waiter for an opcode that has a
live waiter cancels that waiter; and a cancelled waiter stays cancelled
under every later operation — in particular a later notification never
resolves it. -/
theorem ack_registry_single_live_waiter (ops more : List AckOp) (op wid : Nat)
    (w : AckWaiter) :
    (∀ w1 ∈ (runOps ops).waiters, ∀ w2 ∈ (runOps ops).waiters,
      w1.status = WStatus.pending → w2.status = WStatus.pending →
      w1.opcode = w2.opcode → w1 = w2)
    ∧ (w ∈ (runOps ops).waiters → w.status = WStatus.pending →
        w.opcode = op →
        ((runOps ops).step (AckOp.arm op)).statusOf w.wid =
          some WStatus.cancelled)
    ∧ ((runOps ops).statusOf wid = some WStatus.cancelled →
        (runOps (ops ++ more)).statusOf wid = some WStatus.cancelled) := by
  refine ⟨ack_single_pending _ (ackInv_runOps ops), ?_, ?_⟩
  · intro hw hp hop
    rw [← hop]
    exact ack_arm_cancels _ (ackInv_runOps ops) w hw hp
  · intro hc
    have hsplit : runOps (ops ++ more) =
        more.foldl AckState.step (runOps ops) := by
      unfold runOps
      rw [List.foldl_append]
    rw [hsplit]
    exact cancelled_foldl more _ (ackInv_runOps ops) wid hc

/-- C5 witness: the registry theorem applied to the concrete histories
`[arm 8]` (re-armed: the first waiter, id 0, is cancelled) and
`[arm 8, arm 8] ++ [notify 8 [1]]` (the cancelled waiter is not resolved
by the later notification). -/
theorem ack_registry_single_live_waiter_witness :
    ((runOps [AckOp.arm 8]).step (AckOp.arm 8)).statusOf 0 =
      some WStatus.cancelled
    ∧ (runOps ([AckOp.arm 8, AckOp.arm 8] ++ [AckOp.notify 8 [1]])).statusOf 0 =
        some WStatus.cancelled := by
  constructor
  · exact (ack_registry_single_live_waiter [AckOp.arm 8] [] 8 0
      ⟨0, 8, WStatus.pending⟩).2.1 (by decide) (by decide) (by decide)
  · exact (ack_registry_single_live_waiter [AckOp.arm 8, AckOp.arm 8]
      [AckOp.notify 8 [1]] 8 0 ⟨0, 8, WStatus.pending⟩).2.2 (by decide)

/-- C6 counterexample: for a concrete 600-byte payload the upload trace
contains no `awaitAck 8` action at all — the block acks are armed but never
awaited — contradicting the claimed 2 block-ack waits. -/
theorem upload_block_ack_never_awaited :
    ((uploadTrace (List.replicate 600 0) [222, 173, 222, 173]).getD []).countP
        (fun a => decide (a = UploadAction.awaitAck 8)) = 0
    ∧ ¬ ((uploadTrace (List.replicate 600 0)
          [222, 173, 222, 173]).getD []).countP
        (fun a => decide (a = UploadAction.awaitAck 8)) = 2 := by
  decide

/-- C6 (amended): uploading a 600-byte payload emits exactly this trace:
one `armAck 16` before the init write followed by the single awaited init
ack; then 2 blocks of 4 data packets each (512 payload bytes, then 88
payload bytes padded with 0xFF to 512), where the opcode-8 block-ack waiter
is armed before the last packet of each block but never awaited — the loop
proceeds after a fixed pacing sleep instead. -/
theorem upload_600_trace (pcm : List Nat) (hlen : pcm.length = 600)
    (sig : List Nat) (hsig : sig.length = 4) :
    uploadTrace pcm sig = some (
      [UploadAction.armAck 16,
       UploadAction.writeChar (initPayload 600 sig),
       UploadAction.awaitAck 16,
       UploadAction.writeChar ([129, 8] ++ pcm.take 128),
       UploadAction.sleepShort,
       UploadAction.writeChar ([129, 8] ++ (pcm.drop 128).take 128),
       UploadAction.sleepShort,
       UploadAction.writeChar ([129, 8] ++ (pcm.drop 256).take 128),
       UploadAction.sleepShort,
       UploadAction.armAck 8,
       UploadAction.writeChar ([129, 8] ++ (pcm.drop 384).take 128),
       UploadAction.sleepLong,
       UploadAction.writeChar ([129, 8] ++
         ((pcm.drop 512).take 128 ++ List.replicate 40 255)),
       UploadAction.sleepShort,
       UploadAction.writeChar ([129, 8] ++ List.replicate 128 255),
       UploadAction.sleepShort,
       UploadAction.writeChar ([129, 8] ++ List.replicate 128 255),
       UploadAction.sleepShort,
       UploadAction.armAck 8,
       UploadAction.writeChar ([129, 8] ++ List.replicate 128 255),
       UploadAction.sleepLong]) := by
  unfold uploadTrace
  rw [if_neg (by omega)]
  rw [hlen]
  norm_num
  simp [blockActions, packetActions, packetChunk, hlen, List.range_succ]

/-- C6 witness: the amended trace theorem applied to the 600-byte payload
of 7s and the DEAD signature. -/
theorem upload_600_trace_witness :
    uploadTrace (List.replicate 600 7) [222, 173, 222, 173] = some (
      [UploadAction.armAck 16,
       UploadAction.writeChar (initPayload 600 [222, 173, 222, 173]),
       UploadAction.awaitAck 16,
       UploadAction.writeChar ([129, 8] ++ (List.replicate 600 7).take 128),
       UploadAction.sleepShort,
       UploadAction.writeChar ([129, 8] ++
         ((List.replicate 600 7).drop 128).take 128),
       UploadAction.sleepShort,
       UploadAction.writeChar ([129, 8] ++
         ((List.replicate 600 7).drop 256).take 128),
       UploadAction.sleepShort,
       UploadAction.armAck 8,
       UploadAction.writeChar ([129, 8] ++
         ((List.replicate 600 7).drop 384).take 128),
       UploadAction.sleepLong,
       UploadAction.writeChar ([129, 8] ++
         (((List.replicate 600 7).drop 512).take 128
           ++ List.replicate 40 255)),
       UploadAction.sleepShort,
       UploadAction.writeChar ([129, 8] ++ List.replicate 128 255),
       UploadAction.sleepShort,
       UploadAction.writeChar ([129, 8] ++ List.replicate 128 255),
       UploadAction.sleepShort,
       UploadAction.armAck 8,
       UploadAction.writeChar ([129, 8] ++ List.replicate 128 255),
       UploadAction.sleepLong]) :=
  upload_600_trace (List.replicate 600 7) (by simp) [222, 173, 222, 173]
    (by decide)

end Qingping
